import Mathlib

/-!
Shallow embedding of the MASTER_PIPELINE data-processing script:
the Integrator (filter/aggregate the e-commerce source, monthly override,
classification / internet / conflict joins, region and coverage filters)
and the Cleaner (growth rates, IQR outlier removal, temporal filter).

Tables are lists of records, numeric columns are rationals, nullable
columns are `Option` values.  Pandas left merges are modelled by a
`leftMerge` combinator that, for each left row, emits one output row per
matching right row and a single null-padded row when no match exists
(missing keys compare equal, as pandas merge keys do).
-/

set_option maxRecDepth 6000

namespace MasterPipeline

/-- One row of the raw global e-commerce source
(US_ECommerceTotal: Economy Label, Year, Market Label, EnterpriseSize Label,
ECommerceSale Label, US$ at current prices in millions, Percentage in total turnover). -/
structure EcomRow where
  economy : String
  year : Int
  market : String
  entSize : String
  saleType : String
  sales : ℚ
  share : ℚ
deriving DecidableEq

/-- An aggregated country-year e-commerce row (the ecom_agg table). -/
structure AggRow where
  country_name : String
  year : Int
  ecom_sales_usd_millions : ℚ
  ecom_share_pct : ℚ
deriving DecidableEq

/-- The Total-market / All-enterprises / Total-sale-type segment filter. -/
def totalFilter (r : EcomRow) : Bool :=
  decide (r.market = "Total") && decide (r.entSize = "All (persons employed)") &&
    decide (r.saleType = "Total")

def ecomFiltered (rows : List EcomRow) : List EcomRow := rows.filter totalFilter

/-- The distinct (country, year) keys of the filtered source, in first-occurrence order. -/
def ecomKeys (rows : List EcomRow) : List (String × Int) :=
  ((ecomFiltered rows).map (fun r => (r.economy, r.year))).dedup

/-- The group of filtered source rows sharing one (country, year) key. -/
def ecomGroup (rows : List EcomRow) (k : String × Int) : List EcomRow :=
  (ecomFiltered rows).filter (fun r => decide ((r.economy, r.year) = k))

/-- Aggregation of one (country, year) group: sales are summed and the
share-of-turnover percentage is averaged. -/
def mkEcomAggRow (rows : List EcomRow) (k : String × Int) : AggRow :=
  { country_name := k.1
    year := k.2
    ecom_sales_usd_millions := ((ecomGroup rows k).map EcomRow.sales).sum
    ecom_share_pct := ((ecomGroup rows k).map EcomRow.share).sum / ((ecomGroup rows k).length : ℚ) }

/-- groupby(economy, year).agg(sales: sum, share: mean) over the filtered source. -/
def ecomAgg (rows : List EcomRow) : List AggRow :=
  (ecomKeys rows).map (mkEcomAggRow rows)

/-- One record of the Canada monthly source after date parsing
(REF_DATE split into year/month, the Sales series label, VALUE). -/
structure CanadaRaw where
  year : Int
  month : Int
  sales_label : String
  value : ℚ
deriving DecidableEq

def canadaEcomRows (rows : List CanadaRaw) : List CanadaRaw :=
  rows.filter (fun r => decide (r.sales_label = "Retail E-commerce sales, unadjusted"))

def canadaTotalRows (rows : List CanadaRaw) : List CanadaRaw :=
  rows.filter (fun r => decide (r.sales_label = "Retail trade, unadjusted [44-453]"))

/-- A joined monthly record with the derived monthly e-commerce share. -/
structure CanadaMonthlyRow where
  year : Int
  month : Int
  ecom_sales_thousands : ℚ
  total_sales_thousands : ℚ
  ecom_share_pct : ℚ
deriving DecidableEq

/-- Inner join of the e-commerce-sales and total-sales series on (year, month),
with monthly share = ecom / total * 100. -/
def canadaMonthly (rows : List CanadaRaw) : List CanadaMonthlyRow :=
  (canadaEcomRows rows).flatMap fun e =>
    ((canadaTotalRows rows).filter (fun t => decide ((t.year, t.month) = (e.year, e.month)))).map
      fun t => { year := e.year, month := e.month, ecom_sales_thousands := e.value
                 total_sales_thousands := t.value
                 ecom_share_pct := e.value / t.value * 100 }

def canadaYearKeys (rows : List CanadaRaw) : List Int :=
  ((canadaMonthly rows).map CanadaMonthlyRow.year).dedup

def canadaYearGroup (rows : List CanadaRaw) (y : Int) : List CanadaMonthlyRow :=
  (canadaMonthly rows).filter (fun m => decide (m.year = y))

/-- Yearly aggregation of the monthly override: sum the monthly sales, average the
monthly shares, and convert thousands to millions. -/
def mkCanadaYearRow (rows : List CanadaRaw) (y : Int) : AggRow :=
  { country_name := "Canada"
    year := y
    ecom_sales_usd_millions := ((canadaYearGroup rows y).map CanadaMonthlyRow.ecom_sales_thousands).sum / 1000
    ecom_share_pct := ((canadaYearGroup rows y).map CanadaMonthlyRow.ecom_share_pct).sum /
      ((canadaYearGroup rows y).length : ℚ) }

def canadaYearly (rows : List CanadaRaw) : List AggRow :=
  (canadaYearKeys rows).map (mkCanadaYearRow rows)

/-- Replace the global aggregate rows for Canada in the override years by the
override rows; a missing or unreadable override source (`none`) leaves the
global aggregate unchanged. -/
def applyCanada (agg : List AggRow) (canada : Option (List CanadaRaw)) : List AggRow :=
  match canada with
  | none => agg
  | some rows =>
      let cy := canadaYearly rows
      let ys := cy.map AggRow.year
      agg.filter (fun r => !(decide (r.country_name = "Canada") && ys.contains r.year)) ++ cy

/-- One row of the country classification source (Economy, Code, Region, Income group). -/
structure ClassRow where
  country_name : String
  iso3 : Option String
  region : Option String
  income_group : Option String
deriving DecidableEq

/-- Pandas-style left merge: one output row per matching right row, or a single
null-padded row when no right row matches the key. -/
def leftMerge {α β γ : Type} {κ : Type} [DecidableEq κ]
    (keyA : α → κ) (keyB : β → κ) (mkNull : α → γ) (mk : α → β → γ)
    (l : List α) (m : List β) : List γ :=
  l.flatMap fun a =>
    let ms := m.filter fun b => decide (keyB b = keyA a)
    if ms.isEmpty then [mkNull a] else ms.map (mk a)

/-- A country-year row enriched with the classification columns. -/
structure ClassedRow extends AggRow where
  iso3 : Option String
  region : Option String
  income_group : Option String
deriving DecidableEq

/-- Left merge of the aggregate with the classification source on country_name. -/
def mergeClass (agg : List AggRow) (cls : List ClassRow) : List ClassedRow :=
  leftMerge AggRow.country_name ClassRow.country_name
    (fun r => { toAggRow := r, iso3 := none, region := none, income_group := none })
    (fun r c => { toAggRow := r, iso3 := c.iso3, region := c.region, income_group := c.income_group })
    agg cls

/-- One row of the internet penetration source (Code, Year, pct of population online);
a row may carry no iso3 code. -/
structure InternetRow where
  iso3 : Option String
  year : Int
  internet_users_pct : ℚ
deriving DecidableEq

/-- A country-year row further enriched with internet penetration. -/
structure IRow extends ClassedRow where
  internet_users_pct : Option ℚ
deriving DecidableEq

/-- Left merge with the internet source on (iso3, year). -/
def mergeInternet (rows : List ClassedRow) (net : List InternetRow) : List IRow :=
  leftMerge (fun r => (r.iso3, r.year)) (fun i => (i.iso3, i.year))
    (fun r => { toClassedRow := r, internet_users_pct := none })
    (fun r i => { toClassedRow := r, internet_users_pct := some i.internet_users_pct })
    rows net

/-- Lower-cased character list of a string (for the case-insensitive name pattern). -/
def lcChars (s : String) : List Char := s.data.map Char.toLower

def charsHead : List Char → List Char → Bool
  | [], _ => true
  | _ :: _, [] => false
  | p :: ps, c :: cs => p == c && charsHead ps cs

/-- Contiguous sublist test on character lists. -/
def charsHas : List Char → List Char → Bool
  | text, pat =>
    match text with
    | [] => pat.isEmpty
    | _ :: rest => charsHead pat text || charsHas rest pat

/-- The excluded-territory pattern: name contains Hong Kong, Macao or SAR,
case-insensitively. -/
def sarName (name : String) : Bool :=
  charsHas (lcChars name) (lcChars "Hong Kong") || charsHas (lcChars name) (lcChars "Macao") ||
    charsHas (lcChars name) (lcChars "SAR")

/-- The manual taxonomy correction: Malta is moved to Europe & Central Asia. -/
def maltaPatch (r : IRow) : IRow :=
  if r.country_name = "Malta" then { r with region := some "Europe & Central Asia" } else r

/-- Keep only countries having at least two rows in the current table. -/
def coverageFilter (rows : List IRow) : List IRow :=
  rows.filter fun r =>
    decide (2 ≤ (rows.filter (fun s => decide (s.country_name = r.country_name))).length)

/-- One event record of the conflict source (country, year, best estimate, civilian deaths). -/
structure ConflictRaw where
  country : String
  year : Int
  best : ℚ
  deaths_civilians : ℚ
deriving DecidableEq

structure ConflictAggRow where
  country_name : String
  year : Int
  conflict_deaths : ℚ
  civilian_deaths : ℚ
deriving DecidableEq

def conflictKeys (rows : List ConflictRaw) : List (String × Int) :=
  (rows.map (fun r => (r.country, r.year))).dedup

def conflictGroup (rows : List ConflictRaw) (k : String × Int) : List ConflictRaw :=
  rows.filter (fun r => decide ((r.country, r.year) = k))

def mkConflictAggRow (rows : List ConflictRaw) (k : String × Int) : ConflictAggRow :=
  { country_name := k.1
    year := k.2
    conflict_deaths := ((conflictGroup rows k).map ConflictRaw.best).sum
    civilian_deaths := ((conflictGroup rows k).map ConflictRaw.deaths_civilians).sum }

/-- groupby(country, year) summing battle deaths and civilian deaths. -/
def conflictAgg (rows : List ConflictRaw) : List ConflictAggRow :=
  (conflictKeys rows).map (mkConflictAggRow rows)

/-- A country-year row enriched with (zero-filled) conflict data. -/
structure CRow extends IRow where
  conflict_deaths : ℚ
  civilian_deaths : ℚ
deriving DecidableEq

/-- Left merge with the aggregated conflict events on (country_name, year),
filling missing matches with 0; a missing or unreadable conflict source
(`none`) zero-fills both columns for every row. -/
def mergeConflict (rows : List IRow) (conflict : Option (List ConflictRaw)) : List CRow :=
  match conflict with
  | none => rows.map fun r => { toIRow := r, conflict_deaths := 0, civilian_deaths := 0 }
  | some cs =>
      leftMerge (fun r => (r.country_name, r.year))
        (fun a => (a.country_name, a.year))
        (fun r => { toIRow := r, conflict_deaths := 0, civilian_deaths := 0 })
        (fun r a => { toIRow := r, conflict_deaths := a.conflict_deaths,
                      civilian_deaths := a.civilian_deaths })
        rows (conflictAgg cs)

/-- A fully integrated country-year panel row. -/
structure MasterRow extends CRow where
  covid_19_shock : Int
  ukraine_conflict : Int
deriving DecidableEq

/-- The 0/1 crisis indicators derived from the year. -/
def addShocks (r : CRow) : MasterRow :=
  { toCRow := r
    covid_19_shock := if 2020 ≤ r.year ∧ r.year ≤ 2022 then 1 else 0
    ukraine_conflict := if 2022 ≤ r.year then 1 else 0 }

/-- Drop the region excluded for insufficient data (null regions survive this
comparison, exactly as the != filter of the source keeps NaN regions). -/
def dropLatAm (m : List IRow) : List IRow :=
  m.filter fun r => decide (r.region ≠ some "Latin America & Caribbean")

/-- Drop rows whose classification lookup failed (null region). -/
def dropUnclassified (m : List IRow) : List IRow := m.filter fun r => r.region.isSome

/-- Drop the special-administrative-region name matches. -/
def dropSar (m : List IRow) : List IRow := m.filter fun r => !(sarName r.country_name)

def fixMalta (m : List IRow) : List IRow := m.map maltaPatch

/-- The Integrator: filter/aggregate the primary source, apply the monthly
override, join classification, internet and conflict data, and apply the
region, SAR-name, Malta and minimum-coverage rules, in source order. -/
def integrate (ecom : List EcomRow) (canada : Option (List CanadaRaw)) (cls : List ClassRow)
    (net : List InternetRow) (conflict : Option (List ConflictRaw)) : List MasterRow :=
  let agg := applyCanada (ecomAgg ecom) canada
  let m := mergeInternet (mergeClass agg cls) net
  let m := coverageFilter (fixMalta (dropSar (dropUnclassified (dropLatAm m))))
  (mergeConflict m conflict).map addShocks

/-! ### The Cleaner -/

/-- A panel row after the Cleaner's growth-rate derivation; growth columns are
null when no prior-period baseline exists. -/
structure PanelRow extends MasterRow where
  ecom_sales_growth : Option ℚ
  internet_growth : Option ℚ
deriving DecidableEq

/-- Character-code key of a string, for the lexicographic sort on country names. -/
def strKey (s : String) : List Nat := s.data.map Char.toNat

/-- The sort_values(country_name, year) order. -/
def rowLe (a b : MasterRow) : Prop :=
  strKey a.country_name < strKey b.country_name ∨
    (strKey a.country_name = strKey b.country_name ∧ a.year ≤ b.year)

instance : DecidableRel rowLe := fun a b => by unfold rowLe; infer_instance

def sortPanel (rows : List MasterRow) : List MasterRow := List.insertionSort rowLe rows

/-- Percent change against the previous value.  A zero baseline produces a
non-finite float in the source; it is modelled as null here (the development
only reasons about growth values over nonzero baselines). -/
def pctc (prev cur : ℚ) : Option ℚ :=
  if prev = 0 then none else some ((cur - prev) / prev * 100)

/-- The carried pct_change state: country, its last sales value, and the
forward-filled last internet value of the current country group. -/
def GrowthCtx : Type := String × ℚ × Option ℚ

def prevSalesOf (ctx : Option GrowthCtx) (r : MasterRow) : Option ℚ :=
  match ctx with
  | some (c, s, _) => if c = r.country_name then some s else none
  | none => none

def prevPadOf (ctx : Option GrowthCtx) (r : MasterRow) : Option ℚ :=
  match ctx with
  | some (c, _, p) => if c = r.country_name then p else none
  | none => none

/-- The forward-filled internet value at the current row. -/
def curPadOf (ctx : Option GrowthCtx) (r : MasterRow) : Option ℚ :=
  match r.internet_users_pct with
  | some v => some v
  | none => prevPadOf ctx r

/-- Extend one row with its two growth columns, given the pct_change state. -/
def mkPanelRow (ctx : Option GrowthCtx) (r : MasterRow) : PanelRow :=
  { toMasterRow := r
    ecom_sales_growth :=
      match prevSalesOf ctx r with
      | some s => pctc s r.ecom_sales_usd_millions
      | none => none
    internet_growth :=
      match prevPadOf ctx r, curPadOf ctx r with
      | some a, some b => pctc a b
      | _, _ => none }

def nextCtx (ctx : Option GrowthCtx) (r : MasterRow) : Option GrowthCtx :=
  some (r.country_name, r.ecom_sales_usd_millions, curPadOf ctx r)

/-- groupby(country_name).pct_change() over both value columns, walking the
sorted panel while carrying the previous row's state; null internet values are
forward-filled inside the group, matching the pct_change default fill method. -/
def addGrowthAux : Option GrowthCtx → List MasterRow → List PanelRow
  | _, [] => []
  | ctx, r :: rs => mkPanelRow ctx r :: addGrowthAux (nextCtx ctx r) rs

def addGrowth (rows : List MasterRow) : List PanelRow := addGrowthAux none rows

/-- The panel just before outlier removal: sorted by (country, year) with the
two growth columns derived. -/
def preOutlierPanel (rows : List MasterRow) : List PanelRow := addGrowth (sortPanel rows)

/-- Linear-interpolation quantile of a list of (non-null) values, as
Series.quantile computes it: position h = (n-1)q between the sorted values. -/
def quantileOf (xs : List ℚ) (q : ℚ) : ℚ :=
  let s := List.insertionSort (· ≤ ·) xs
  let h : ℚ := ((s.length : ℚ) - 1) * q
  let i : ℕ := (Rat.floor h).toNat
  let lo := s.getD i 0
  let hi := s.getD (i + 1) lo
  lo + (h - (i : ℚ)) * (hi - lo)

/-- The non-null values of a column. -/
def colVals (g : PanelRow → Option ℚ) (df : List PanelRow) : List ℚ := df.filterMap g

def fenceLower (g : PanelRow → Option ℚ) (df : List PanelRow) : ℚ :=
  let q1 := quantileOf (colVals g df) (1 / 4)
  let q3 := quantileOf (colVals g df) (3 / 4)
  q1 - 3 * (q3 - q1)

def fenceUpper (g : PanelRow → Option ℚ) (df : List PanelRow) : ℚ :=
  let q1 := quantileOf (colVals g df) (1 / 4)
  let q3 := quantileOf (colVals g df) (3 / 4)
  q3 + 3 * (q3 - q1)

/-- remove_extreme_outliers: keep the rows whose column value is inside the
3-IQR fences or null. -/
def removeExtremeOutliers (g : PanelRow → Option ℚ) (df : List PanelRow) : List PanelRow :=
  df.filter fun r =>
    match g r with
    | some v => decide (fenceLower g df ≤ v ∧ v ≤ fenceUpper g df)
    | none => true

def ecomGrowthCol (r : PanelRow) : Option ℚ := r.ecom_sales_growth

def internetGrowthCol (r : PanelRow) : Option ℚ := r.internet_growth

/-- The outlier loop of the source: it runs over the single column
ecom_sales_growth, and only when that column has a non-null entry. -/
def outlierStep (df : List PanelRow) : List PanelRow :=
  if 0 < (colVals ecomGrowthCol df).length then removeExtremeOutliers ecomGrowthCol df else df

/-- The Cleaner: sort, derive growth rates, remove extreme growth outliers,
and keep the 2012-onwards window. -/
def cleanPanel (rows : List MasterRow) : List PanelRow :=
  (outlierStep (preOutlierPanel rows)).filter fun r => decide (2012 ≤ r.year)

/-- The whole pipeline: the Integrator followed by the Cleaner; the result is
the emitted master panel. -/
def pipeline (ecom : List EcomRow) (canada : Option (List CanadaRaw)) (cls : List ClassRow)
    (net : List InternetRow) (conflict : Option (List ConflictRaw)) : List PanelRow :=
  cleanPanel (integrate ecom canada cls net conflict)

/-- The (country_name, year) key of an emitted panel row. -/
def panelKey (r : PanelRow) : String × Int := (r.country_name, r.year)

/-- The (country_name, year) key of an integrated row. -/
def masterKey (r : MasterRow) : String × Int := (r.country_name, r.year)

/-- The (country_name, year) key of an aggregated row. -/
def aggKey (a : AggRow) : String × Int := (a.country_name, a.year)

/-! ### Keys through the merge stages -/

def classedKey (c : ClassedRow) : String × Int := (c.country_name, c.year)

def iKey (r : IRow) : String × Int := (r.country_name, r.year)

def cKey (r : CRow) : String × Int := (r.country_name, r.year)

/-- The relation between the rows already consumed by the pct_change walk and
the carried state: the state records the last row's country, sales and
(non-null, positive) internet value. -/
def ctxRel (E : List MasterRow) (ctx : Option GrowthCtx) : Prop :=
  match E.getLast? with
  | none => ctx = none
  | some q => ∃ w, q.internet_users_pct = some w ∧ 0 < w ∧
      ctx = some (q.country_name, q.ecom_sales_usd_millions, some w)

/-! ### Concrete inputs used by the scenario theorems -/

/-- An e-commerce source row in the Total/All/Total slice. -/
def ecomT (c : String) (y : Int) (s sh : ℚ) : EcomRow :=
  { economy := c, year := y, market := "Total", entSize := "All (persons employed)"
    saleType := "Total", sales := s, share := sh }

def eDup : List EcomRow := [ecomT "Avaria" 2015 10 5, ecomT "Avaria" 2016 11 5]

def clsDup : List ClassRow :=
  [{ country_name := "Avaria", iso3 := some "AVA", region := some "Europe & Central Asia"
     income_group := some "High income" }]

def netDup : List InternetRow :=
  [{ iso3 := some "AVA", year := 2015, internet_users_pct := 50 },
   { iso3 := some "AVA", year := 2015, internet_users_pct := 60 },
   { iso3 := some "AVA", year := 2016, internet_users_pct := 70 }]

def eLate : List EcomRow := [ecomT "Avaria" 2029 10 5, ecomT "Avaria" 2030 11 5]

def eGap : List EcomRow := [ecomT "Avaria" 2014 10 5, ecomT "Avaria" 2018 12 6]

def netGap : List InternetRow :=
  [{ iso3 := some "AVA", year := 2014, internet_users_pct := 50 },
   { iso3 := some "AVA", year := 2018, internet_users_pct := 60 }]

def clsNoInc : List ClassRow :=
  [{ country_name := "Avaria", iso3 := some "AVA", region := some "South Asia"
     income_group := none }]

def eW : List EcomRow := [ecomT "Wland" 2015 10 5, ecomT "Wland" 2016 12 6]

def clsW : List ClassRow :=
  [{ country_name := "Wland", iso3 := some "WLA", region := some "Europe & Central Asia"
     income_group := some "High income" }]

def netW : List InternetRow :=
  [{ iso3 := some "WLA", year := 2015, internet_users_pct := 50 },
   { iso3 := some "WLA", year := 2016, internet_users_pct := 60 }]

/-- The 2015 row the pipeline emits on the witness input. -/
def pW2015 : PanelRow :=
  { country_name := "Wland", year := 2015, ecom_sales_usd_millions := 10, ecom_share_pct := 5
    iso3 := some "WLA", region := some "Europe & Central Asia"
    income_group := some "High income", internet_users_pct := some 50
    conflict_deaths := 0, civilian_deaths := 0, covid_19_shock := 0, ukraine_conflict := 0
    ecom_sales_growth := none, internet_growth := none }

/-- The 2016 row the pipeline emits on the witness input. -/
def pW2016 : PanelRow :=
  { country_name := "Wland", year := 2016, ecom_sales_usd_millions := 12, ecom_share_pct := 6
    iso3 := some "WLA", region := some "Europe & Central Asia"
    income_group := some "High income", internet_users_pct := some 60
    conflict_deaths := 0, civilian_deaths := 0, covid_19_shock := 0, ukraine_conflict := 0
    ecom_sales_growth := some 20, internet_growth := some 20 }

/-- A bare panel row carrying chosen share and growth column values. -/
def pG (y : Int) (sh : ℚ) (g ig : Option ℚ) : PanelRow :=
  { country_name := "G", year := y, ecom_sales_usd_millions := 1, ecom_share_pct := sh
    iso3 := none, region := none, income_group := none, internet_users_pct := none
    conflict_deaths := 0, civilian_deaths := 0, covid_19_shock := 0, ukraine_conflict := 0
    ecom_sales_growth := g, internet_growth := ig }

/-- The spec scenario: a growth column holding 1, 2, 3, 4, 5, 1000. -/
def dfScenario : List PanelRow :=
  [pG 1 1 (some 1) none, pG 2 1 (some 2) none, pG 3 1 (some 3) none,
   pG 4 1 (some 4) none, pG 5 1 (some 5) none, pG 6 1 (some 1000) none]

/-- A growth column holding 1, 2, 3, 4, 5, 11: the last value separates the
upper fences built from Q1 and from Q3. -/
def dfEleven : List PanelRow :=
  [pG 1 1 (some 1) none, pG 2 1 (some 2) none, pG 3 1 (some 3) none,
   pG 4 1 (some 4) none, pG 5 1 (some 5) none, pG 6 1 (some 11) none]

/-- All sales growths moderate, internet growths holding an extreme value. -/
def dfShares : List PanelRow :=
  [pG 1 1 (some 1) (some 1), pG 2 1 (some 1) (some 2), pG 3 1 (some 1) (some 3),
   pG 4 1 (some 1) (some 4), pG 5 1 (some 1) (some 5), pG 6 1 (some 1) (some 1000)]

/-- A null-growth row with an extreme share value next to a moderate row. -/
def dfNullShare : List PanelRow :=
  [pG 1 999 none none, pG 2 1 (some 1) none, pG 3 2 (some 1) none]

def eTest : List EcomRow :=
  [ecomT "Testland" 2019 10 2, ecomT "Testland" 2019 20 3, ecomT "Testland" 2019 5 1,
   { economy := "Testland", year := 2019, market := "B2C"
     entSize := "All (persons employed)", saleType := "Total", sales := 999, share := 9 }]

def crW : List CanadaRaw :=
  [{ year := 2020, month := 6, sales_label := "Retail E-commerce sales, unadjusted", value := 100 },
   { year := 2020, month := 6, sales_label := "Retail trade, unadjusted [44-453]", value := 1000 },
   { year := 2020, month := 12, sales_label := "Retail E-commerce sales, unadjusted", value := 50 }]

def eCan : List EcomRow := [ecomT "Canada" 2019 10 5, ecomT "Canada" 2020 999 9]

def clsCan : List ClassRow :=
  [{ country_name := "Canada", iso3 := some "CAN", region := some "North America"
     income_group := some "High income" }]

/-- The overridden 2020 Canada row the pipeline emits on the witness input. -/
def pCan2020 : PanelRow :=
  { country_name := "Canada", year := 2020, ecom_sales_usd_millions := 1 / 10
    ecom_share_pct := 10, iso3 := some "CAN", region := some "North America"
    income_group := some "High income", internet_users_pct := none
    conflict_deaths := 0, civilian_deaths := 0, covid_19_shock := 1, ukraine_conflict := 0
    ecom_sales_growth := some (-99), internet_growth := none }

def cs9 : List ConflictRaw :=
  [{ country := "Otherland", year := 2015, best := 5, deaths_civilians := 2 }]

def aggEx : List AggRow :=
  [{ country_name := "X", year := 2000, ecom_sales_usd_millions := 1, ecom_share_pct := 2 }]

/-- The 2014 row the Integrator emits on the gap input. -/
def mG2014 : MasterRow :=
  { country_name := "Avaria", year := 2014, ecom_sales_usd_millions := 10, ecom_share_pct := 5
    iso3 := some "AVA", region := some "Europe & Central Asia"
    income_group := some "High income", internet_users_pct := some 50
    conflict_deaths := 0, civilian_deaths := 0, covid_19_shock := 0, ukraine_conflict := 0 }

/-- The 2018 row the Integrator emits on the gap input. -/
def mG2018 : MasterRow :=
  { country_name := "Avaria", year := 2018, ecom_sales_usd_millions := 12, ecom_share_pct := 6
    iso3 := some "AVA", region := some "Europe & Central Asia"
    income_group := some "High income", internet_users_pct := some 60
    conflict_deaths := 0, civilian_deaths := 0, covid_19_shock := 0, ukraine_conflict := 0 }

def mW2015 : MasterRow := pW2015.toMasterRow

def mW2016 : MasterRow := pW2016.toMasterRow

def eSingle : List EcomRow := [ecomT "Alandia" 2005 10 5, ecomT "Alandia" 2015 12 6]

def clsSingle : List ClassRow :=
  [{ country_name := "Alandia", iso3 := some "ALA", region := some "Europe & Central Asia"
     income_group := some "High income" }]

/-! ### Generic list facts used throughout -/

theorem filter_ne_nil_iff {α : Type} (p : α → Bool) (l : List α) :
    l.filter p ≠ [] ↔ ∃ a ∈ l, p a := by
  constructor
  · intro h
    rcases List.exists_mem_of_ne_nil _ h with ⟨a, ha⟩
    exact ⟨a, (List.mem_filter.mp ha).1, (List.mem_filter.mp ha).2⟩
  · rintro ⟨a, ha, hp⟩ hnil
    exact (List.eq_nil_iff_forall_not_mem.mp hnil a) (List.mem_filter.mpr ⟨ha, hp⟩)

theorem length_filter_key_le_one {α κ : Type} [DecidableEq κ] (f : α → κ) (l : List α)
    (h : (l.map f).Nodup) (v : κ) :
    (l.filter fun a => decide (f a = v)).length ≤ 1 := by
  induction l with
  | nil => simp
  | cons a t ih =>
      have hnd : (t.map f).Nodup := (List.nodup_cons.mp h).2
      by_cases hv : f a = v
      · have ht : t.filter (fun x => decide (f x = v)) = [] := by
          rw [List.filter_eq_nil_iff]
          intro b hb
          simp only [decide_eq_true_eq]
          intro hbv
          exact (List.nodup_cons.mp h).1 (hv ▸ hbv ▸ List.mem_map_of_mem f hb)
        simp [List.filter_cons, hv, ht]
      · simpa [List.filter_cons, hv] using ih hnd

theorem filter_eq_singleton_of_nodup {κ : Type} [DecidableEq κ] (ks : List κ) (a : κ)
    (hnd : ks.Nodup) (ha : a ∈ ks) :
    ks.filter (fun k => decide (k = a)) = [a] := by
  induction ks with
  | nil => cases ha
  | cons k t ih =>
      rcases List.mem_cons.mp ha with h | h
      · have hk : k = a := h.symm
        have ht : t.filter (fun x => decide (x = a)) = [] := by
          rw [List.filter_eq_nil_iff]
          intro b hb
          simp only [decide_eq_true_eq]
          intro hba
          exact (List.nodup_cons.mp hnd).1 ((hba.trans hk.symm) ▸ hb)
        simp [List.filter_cons, hk, ht]
      · have hk : ¬(k = a) := fun hka => (List.nodup_cons.mp hnd).1 (hka ▸ h)
        simp only [List.filter_cons, decide_eq_true_eq]
        rw [if_neg hk]
        exact ih (List.nodup_cons.mp hnd).2 h

/-! ### leftMerge facts -/

theorem leftMerge_map_out {α β γ κ κ' : Type} [DecidableEq κ]
    (keyA : α → κ) (keyB : β → κ) (mkNull : α → γ) (mk : α → β → γ)
    (out : γ → κ') (outA : α → κ')
    (l : List α) (m : List β)
    (hm : (m.map keyB).Nodup)
    (hk0 : ∀ a, out (mkNull a) = outA a) (hk : ∀ a b, out (mk a b) = outA a) :
    (leftMerge keyA keyB mkNull mk l m).map out = l.map outA := by
  induction l with
  | nil => rfl
  | cons a t ih =>
      have hle : (m.filter fun b => decide (keyB b = keyA a)).length ≤ 1 :=
        length_filter_key_le_one keyB m hm (keyA a)
      simp only [leftMerge, List.flatMap_cons, List.map_append]
      rw [show (t.flatMap fun a => let ms := m.filter fun b => decide (keyB b = keyA a);
            if ms.isEmpty then [mkNull a] else ms.map (mk a)) =
          leftMerge keyA keyB mkNull mk t m from rfl, ih]
      rcases hms : m.filter fun b => decide (keyB b = keyA a) with _ | ⟨b, rest⟩
      · simp [hms, hk0]
      · have : rest = [] := by
          have := hms ▸ hle
          simpa using this
        subst this
        simp only [hms, List.isEmpty_cons, List.map_cons, List.map_nil, List.map_map]
        simp [hk a b]

theorem leftMerge_mem {α β γ κ : Type} [DecidableEq κ]
    (keyA : α → κ) (keyB : β → κ) (mkNull : α → γ) (mk : α → β → γ)
    (l : List α) (m : List β) (c : γ) (hc : c ∈ leftMerge keyA keyB mkNull mk l m) :
    ∃ a ∈ l, c = mkNull a ∨ ∃ b ∈ m, c = mk a b ∧ keyB b = keyA a := by
  simp only [leftMerge, List.mem_flatMap] at hc
  rcases hc with ⟨a, ha, hc⟩
  refine ⟨a, ha, ?_⟩
  by_cases he : (m.filter fun b => decide (keyB b = keyA a)).isEmpty
  · rw [if_pos he] at hc
    exact Or.inl (List.mem_singleton.mp hc)
  · rw [if_neg he] at hc
    rcases List.mem_map.mp hc with ⟨b, hb, hcb⟩
    have hb' := List.mem_filter.mp hb
    exact Or.inr ⟨b, hb'.1, hcb.symm, of_decide_eq_true hb'.2⟩

theorem leftMerge_null_of_no_match {α β γ κ : Type} [DecidableEq κ]
    (keyA : α → κ) (keyB : β → κ) (mkNull : α → γ) (mk : α → β → γ)
    (l : List α) (m : List β) (c : γ) (hc : c ∈ leftMerge keyA keyB mkNull mk l m)
    (hnm : ∀ b ∈ m, ∀ a ∈ l, keyB b ≠ keyA a) :
    ∃ a ∈ l, c = mkNull a := by
  rcases leftMerge_mem keyA keyB mkNull mk l m c hc with ⟨a, ha, h | ⟨b, hb, _, hkb⟩⟩
  · exact ⟨a, ha, h⟩
  · exact absurd hkb (hnm b hb a ha)

/-! ### Keys of the grouped tables -/

theorem ecomAgg_map_key (rows : List EcomRow) :
    (ecomAgg rows).map aggKey = ecomKeys rows := by
  unfold ecomAgg
  rw [List.map_map]
  exact (List.map_congr_left fun k _ => rfl).trans (List.map_id _)

theorem ecomAgg_keys_nodup (rows : List EcomRow) : ((ecomAgg rows).map aggKey).Nodup := by
  rw [ecomAgg_map_key]
  exact List.nodup_dedup _

theorem canadaYearly_map_year (rows : List CanadaRaw) :
    (canadaYearly rows).map AggRow.year = canadaYearKeys rows := by
  unfold canadaYearly
  rw [List.map_map]
  exact (List.map_congr_left fun k _ => rfl).trans (List.map_id _)

theorem canadaYearly_country (rows : List CanadaRaw) :
    ∀ a ∈ canadaYearly rows, a.country_name = "Canada" := by
  intro a ha
  rcases List.mem_map.mp ha with ⟨y, _, hy⟩
  rw [← hy]
  rfl

theorem canadaYearly_keys_nodup (rows : List CanadaRaw) :
    ((canadaYearly rows).map aggKey).Nodup := by
  unfold canadaYearly
  rw [List.map_map]
  have : (aggKey ∘ mkCanadaYearRow rows) = fun y => ("Canada", y) := rfl
  rw [this]
  exact (List.nodup_dedup _).map fun y z h => congrArg Prod.snd h

theorem conflictAgg_map_key (rows : List ConflictRaw) :
    (conflictAgg rows).map (fun a => (a.country_name, a.year)) = conflictKeys rows := by
  unfold conflictAgg
  rw [List.map_map]
  exact (List.map_congr_left fun k _ => rfl).trans (List.map_id _)

theorem conflictAgg_keys_nodup (rows : List ConflictRaw) :
    ((conflictAgg rows).map (fun a => (a.country_name, a.year))).Nodup := by
  rw [conflictAgg_map_key]
  exact List.nodup_dedup _

/-! ### The monthly override replacement -/

theorem applyCanada_keys_nodup (agg : List AggRow) (canada : Option (List CanadaRaw))
    (h : (agg.map aggKey).Nodup) : ((applyCanada agg canada).map aggKey).Nodup := by
  cases canada with
  | none => exact h
  | some rows =>
      unfold applyCanada
      rw [List.map_append, List.nodup_append]
      refine ⟨((List.filter_sublist _).map aggKey).nodup h, canadaYearly_keys_nodup rows, ?_⟩
      intro k hk hk'
      rcases List.mem_map.mp hk with ⟨a, ha, hka⟩
      rcases List.mem_map.mp hk' with ⟨b, hb, hkb⟩
      have hmemf := List.mem_filter.mp ha
      have hbc : b.country_name = "Canada" := canadaYearly_country rows b hb
      have hkeq : aggKey a = aggKey b := hka.trans hkb.symm
      have hac : a.country_name = "Canada" := by
        have := congrArg Prod.fst hkeq
        simpa [aggKey, hbc] using this
      have hay : a.year = b.year := congrArg Prod.snd hkeq
      have : ¬a.country_name = "Canada" ∨ ∀ x ∈ canadaYearly rows, ¬x.year = a.year := by
        simpa using hmemf.2
      rcases this with h1 | h2
      · exact h1 hac
      · exact h2 b hb hay.symm

theorem applyCanada_mem (agg : List AggRow) (canada : Option (List CanadaRaw)) (a : AggRow)
    (ha : a ∈ applyCanada agg canada) :
    a ∈ agg ∨ ∃ rows, canada = some rows ∧ a ∈ canadaYearly rows := by
  cases canada with
  | none => exact Or.inl ha
  | some rows =>
      unfold applyCanada at ha
      rcases List.mem_append.mp ha with h | h
      · exact Or.inl (List.mem_of_mem_filter h)
      · exact Or.inr ⟨rows, rfl, h⟩

theorem applyCanada_authoritative (agg : List AggRow) (rows : List CanadaRaw) (a : AggRow)
    (ha : a ∈ applyCanada agg (some rows)) (hc : a.country_name = "Canada")
    (hy : a.year ∈ (canadaYearly rows).map AggRow.year) : a ∈ canadaYearly rows := by
  unfold applyCanada at ha
  rcases List.mem_append.mp ha with h | h
  · exfalso
    have hmemf := List.mem_filter.mp h
    have : ¬a.country_name = "Canada" ∨ ∀ x ∈ canadaYearly rows, ¬x.year = a.year := by
      simpa using hmemf.2
    rcases this with h1 | h2
    · exact h1 hc
    · rcases List.mem_map.mp hy with ⟨x, hx, hxy⟩
      exact h2 x hx hxy
  · exact h

theorem integrate_eq (ecom : List EcomRow) (canada : Option (List CanadaRaw))
    (cls : List ClassRow) (net : List InternetRow) (conflict : Option (List ConflictRaw)) :
    integrate ecom canada cls net conflict =
      (mergeConflict
        (coverageFilter (fixMalta (dropSar (dropUnclassified (dropLatAm
          (mergeInternet (mergeClass (applyCanada (ecomAgg ecom) canada) cls) net))))))
        conflict).map addShocks := rfl

theorem mergeClass_map_key (agg : List AggRow) (cls : List ClassRow)
    (hcls : (cls.map ClassRow.country_name).Nodup) :
    (mergeClass agg cls).map classedKey = agg.map aggKey :=
  leftMerge_map_out _ _ _ _ classedKey aggKey agg cls hcls (fun _ => rfl) (fun _ _ => rfl)

theorem mergeInternet_map_key (rows : List ClassedRow) (net : List InternetRow)
    (hnet : (net.map fun i => (i.iso3, i.year)).Nodup) :
    (mergeInternet rows net).map iKey = rows.map classedKey :=
  leftMerge_map_out _ _ _ _ iKey classedKey rows net hnet (fun _ => rfl) (fun _ _ => rfl)

theorem mergeConflict_map_key (rows : List IRow) (conflict : Option (List ConflictRaw)) :
    (mergeConflict rows conflict).map cKey = rows.map iKey := by
  cases conflict with
  | none =>
      rw [mergeConflict, List.map_map]
      exact List.map_congr_left fun r _ => rfl
  | some cs =>
      exact leftMerge_map_out _ _ _ _ cKey iKey rows (conflictAgg cs)
        (conflictAgg_keys_nodup cs) (fun _ => rfl) (fun _ _ => rfl)

theorem maltaPatch_key (r : IRow) : iKey (maltaPatch r) = iKey r := by
  unfold maltaPatch
  split <;> rfl

theorem fixMalta_map_key (m : List IRow) : (fixMalta m).map iKey = m.map iKey := by
  rw [fixMalta, List.map_map]
  exact List.map_congr_left fun r _ => maltaPatch_key r

/-- Under a duplicate-free classification source and a duplicate-free internet
source, the Integrator's output has pairwise distinct (country_name, year) keys. -/
theorem integrate_keys_nodup (ecom : List EcomRow) (canada : Option (List CanadaRaw))
    (cls : List ClassRow) (net : List InternetRow) (conflict : Option (List ConflictRaw))
    (hcls : (cls.map ClassRow.country_name).Nodup)
    (hnet : (net.map fun i => (i.iso3, i.year)).Nodup) :
    ((integrate ecom canada cls net conflict).map masterKey).Nodup := by
  rw [integrate_eq, List.map_map]
  have hco : (masterKey ∘ addShocks) = cKey := rfl
  rw [hco, mergeConflict_map_key]
  have h2n : ((mergeInternet (mergeClass (applyCanada (ecomAgg ecom) canada) cls) net).map
      iKey).Nodup := by
    rw [mergeInternet_map_key _ _ hnet, mergeClass_map_key _ _ hcls]
    exact applyCanada_keys_nodup _ _ (ecomAgg_keys_nodup ecom)
  refine ((List.filter_sublist _).map iKey).nodup ?_
  rw [fixMalta_map_key]
  refine ((List.filter_sublist _).map iKey).nodup ?_
  refine ((List.filter_sublist _).map iKey).nodup ?_
  refine ((List.filter_sublist _).map iKey).nodup ?_
  exact h2n

/-! ### Structure of the Cleaner -/

theorem addGrowthAux_map (ctx : Option GrowthCtx) (l : List MasterRow) :
    (addGrowthAux ctx l).map PanelRow.toMasterRow = l := by
  induction l generalizing ctx with
  | nil => rfl
  | cons r rs ih => simp [addGrowthAux, mkPanelRow, ih]

theorem sortPanel_perm (rows : List MasterRow) : List.Perm (sortPanel rows) rows :=
  List.perm_insertionSort _ _

theorem preOutlierPanel_map (rows : List MasterRow) :
    (preOutlierPanel rows).map PanelRow.toMasterRow = sortPanel rows :=
  addGrowthAux_map none (sortPanel rows)

theorem preOutlierPanel_mem (rows : List MasterRow) (p : PanelRow)
    (hp : p ∈ preOutlierPanel rows) : p.toMasterRow ∈ rows := by
  have h1 : p.toMasterRow ∈ (preOutlierPanel rows).map PanelRow.toMasterRow :=
    List.mem_map_of_mem _ hp
  rw [preOutlierPanel_map] at h1
  exact (sortPanel_perm rows).mem_iff.mp h1

theorem outlierStep_sublist (df : List PanelRow) : List.Sublist (outlierStep df) df := by
  unfold outlierStep
  split
  · exact List.filter_sublist df
  · exact List.Sublist.refl df

theorem cleanPanel_sub_preOutlier (rows : List MasterRow) (p : PanelRow)
    (hp : p ∈ cleanPanel rows) : p ∈ preOutlierPanel rows := by
  unfold cleanPanel at hp
  exact (outlierStep_sublist _).mem (List.mem_of_mem_filter hp)

theorem cleanPanel_mem (rows : List MasterRow) (p : PanelRow) (hp : p ∈ cleanPanel rows) :
    p.toMasterRow ∈ rows :=
  preOutlierPanel_mem rows p (cleanPanel_sub_preOutlier rows p hp)

theorem preOutlierPanel_map_key (rows : List MasterRow) :
    (preOutlierPanel rows).map panelKey = (sortPanel rows).map masterKey := by
  have h : panelKey = masterKey ∘ PanelRow.toMasterRow := rfl
  rw [h, ← List.map_map, preOutlierPanel_map]

theorem cleanPanel_keys_nodup (rows : List MasterRow) (h : (rows.map masterKey).Nodup) :
    ((cleanPanel rows).map panelKey).Nodup := by
  have hpre : ((preOutlierPanel rows).map panelKey).Nodup := by
    rw [preOutlierPanel_map_key]
    exact ((sortPanel_perm rows).map masterKey).nodup_iff.mpr h
  have s1 : List.Sublist ((cleanPanel rows).map panelKey) ((preOutlierPanel rows).map panelKey) := by
    unfold cleanPanel
    exact ((List.filter_sublist _).trans (outlierStep_sublist _)).map panelKey
  exact s1.nodup hpre

/-! ### The sort order on panel rows -/

theorem strKey_inj : Function.Injective strKey := by
  intro a b h
  rcases a with ⟨da⟩
  rcases b with ⟨db⟩
  have hinj : Function.Injective Char.toNat := fun c d hcd => Char.ext (UInt32.toNat.inj hcd)
  have : da = db := List.map_injective_iff.mpr hinj h
  rw [this]

instance : IsTotal MasterRow rowLe where
  total a b := by
    rcases lt_trichotomy (strKey a.country_name) (strKey b.country_name) with h | h | h
    · exact Or.inl (Or.inl h)
    · rcases Int.le_total a.year b.year with hy | hy
      · exact Or.inl (Or.inr ⟨h, hy⟩)
      · exact Or.inr (Or.inr ⟨h.symm, hy⟩)
    · exact Or.inr (Or.inl h)

instance : IsTrans MasterRow rowLe where
  trans a b c hab hbc := by
    rcases hab with h1 | ⟨h1, h1y⟩ <;> rcases hbc with h2 | ⟨h2, h2y⟩
    · exact Or.inl (h1.trans h2)
    · exact Or.inl (by rw [← h2]; exact h1)
    · exact Or.inl (by rw [h1]; exact h2)
    · exact Or.inr ⟨h1.trans h2, h1y.trans h2y⟩

theorem rowLe_year_of_eq {a b : MasterRow} (h : rowLe a b)
    (hc : a.country_name = b.country_name) : a.year ≤ b.year := by
  rcases h with h | ⟨_, hy⟩
  · exact absurd (hc ▸ h) (lt_irrefl _)
  · exact hy

theorem rowLe_strle {a b : MasterRow} (h : rowLe a b) :
    strKey a.country_name ≤ strKey b.country_name := by
  rcases h with h | ⟨h, _⟩
  · exact le_of_lt h
  · exact le_of_eq h

theorem rowLe_country_lt {a b : MasterRow} (h : rowLe a b)
    (hne : a.country_name ≠ b.country_name) :
    strKey a.country_name < strKey b.country_name := by
  rcases h with h | ⟨he, _⟩
  · exact h
  · exact absurd (strKey_inj he) hne

theorem sortPanel_pairwise (rows : List MasterRow) : (sortPanel rows).Pairwise rowLe :=
  List.sorted_insertionSort rowLe rows

theorem pairwise_getLast {α : Type} {R : α → α → Prop} :
    ∀ {l : List α}, l.Pairwise R → ∀ {y : α}, l.getLast? = some y → ∀ x ∈ l, x = y ∨ R x y := by
  intro l
  induction l with
  | nil => intro _ y hy; simp at hy
  | cons a t ih =>
      intro hp y hy x hx
      cases t with
      | nil =>
          have hya : y = a := by simpa using hy.symm
          have hxa : x = a := by simpa using hx
          exact Or.inl (hxa.trans hya.symm)
      | cons b t' =>
          rw [List.getLast?_cons_cons] at hy
          rcases List.mem_cons.mp hx with h | h
          · exact Or.inr (h ▸ (List.pairwise_cons.mp hp).1 y (List.mem_of_getLast?_eq_some hy))
          · exact ih (List.pairwise_cons.mp hp).2 hy x h

theorem key_ne_of_nodup_append {E l : List MasterRow} {q r : MasterRow}
    (h : ((E ++ l).map masterKey).Nodup) (hq : q ∈ E) (hr : r ∈ l) :
    masterKey q ≠ masterKey r := by
  rw [List.map_append, List.nodup_append] at h
  exact fun he => h.2.2 (List.mem_map_of_mem _ hq) (he ▸ List.mem_map_of_mem _ hr)

/-! ### Nullness of the growth columns -/

theorem addGrowthAux_null_iff (l : List MasterRow) :
    ∀ (E : List MasterRow) (ctx : Option GrowthCtx),
    (E ++ l).Pairwise rowLe →
    ((E ++ l).map masterKey).Nodup →
    (∀ q ∈ E ++ l, 0 < q.ecom_sales_usd_millions) →
    (∀ q ∈ E ++ l, ∃ v, q.internet_users_pct = some v ∧ 0 < v) →
    ctxRel E ctx →
    ∀ p ∈ addGrowthAux ctx l,
      ((p.ecom_sales_growth = none ↔
        ¬ ∃ q ∈ E ++ l, q.country_name = p.country_name ∧ q.year < p.year) ∧
       (p.internet_growth = none ↔
        ¬ ∃ q ∈ E ++ l, q.country_name = p.country_name ∧ q.year < p.year)) := by
  induction l with
  | nil => intro E ctx _ _ _ _ _ p hp; cases hp
  | cons r rs ih =>
      intro E ctx hsort hnd hpos hnet hctx p hp
      rw [show addGrowthAux ctx (r :: rs) = mkPanelRow ctx r :: addGrowthAux (nextCtx ctx r) rs
        from rfl] at hp
      have hrE : ∀ q ∈ rs, q.country_name = r.country_name → ¬ q.year < r.year := by
        intro q hq hc
        have hpair : (r :: rs).Pairwise rowLe := (List.pairwise_append.mp hsort).2.1
        have hle : rowLe r q := (List.pairwise_cons.mp hpair).1 q hq
        exact not_lt.mpr (rowLe_year_of_eq hle hc.symm)
      rcases List.mem_cons.mp hp with rfl | hp'
      · -- the head row, extended with the growth columns from the carried state
        have hpc : (mkPanelRow ctx r).country_name = r.country_name := rfl
        have hpy : (mkPanelRow ctx r).year = r.year := rfl
        rcases hgl : E.getLast? with _ | q0
        · -- no earlier row at all: both growth columns are null
          have hE : E = [] := List.getLast?_eq_none_iff.mp hgl
          subst hE
          have hctx' : ctx = none := by
            unfold ctxRel at hctx
            simpa using hctx
          subst hctx'
          have hg1 : (mkPanelRow none r).ecom_sales_growth = none := by
            simp [mkPanelRow, prevSalesOf]
          have hg2 : (mkPanelRow none r).internet_growth = none := by
            simp [mkPanelRow, prevPadOf]
          have hno : ¬ ∃ q ∈ ([] : List MasterRow) ++ r :: rs,
              q.country_name = (mkPanelRow none r).country_name ∧
                q.year < (mkPanelRow none r).year := by
            rw [hpc, hpy]
            rintro ⟨q, hq, hqc, hqy⟩
            rcases List.mem_cons.mp (by simpa using hq) with h | h
            · exact lt_irrefl _ (h ▸ hqy)
            · exact hrE q h hqc hqy
          exact ⟨iff_of_true hg1 hno, iff_of_true hg2 hno⟩
        · -- there is a previous row q0 (the last of E)
          unfold ctxRel at hctx
          rw [hgl] at hctx
          rcases hctx with ⟨w, hw, hwpos, hceq⟩
          subst hceq
          have hq0E : q0 ∈ E := List.mem_of_getLast?_eq_some hgl
          have hq0pos : 0 < q0.ecom_sales_usd_millions :=
            hpos q0 (List.mem_append_left _ hq0E)
          by_cases hcc : q0.country_name = r.country_name
          · -- same country: both growth columns are non-null
            rcases hnet r (List.mem_append_right _ (List.mem_cons_self r rs)) with
              ⟨v, hv, hvpos⟩
            have hg1 : (mkPanelRow (some (q0.country_name, q0.ecom_sales_usd_millions,
                some w)) r).ecom_sales_growth ≠ none := by
              simp [mkPanelRow, prevSalesOf, hcc, pctc, hq0pos.ne']
            have hg2 : (mkPanelRow (some (q0.country_name, q0.ecom_sales_usd_millions,
                some w)) r).internet_growth ≠ none := by
              simp [mkPanelRow, prevPadOf, curPadOf, hcc, hv, pctc, hwpos.ne']
            have hyne : q0.year ≠ r.year := by
              intro hy
              exact key_ne_of_nodup_append hnd hq0E (List.mem_cons_self r rs)
                (Prod.ext hcc hy)
            have hylt : q0.year < r.year := by
              have hle : rowLe q0 r :=
                (List.pairwise_append.mp hsort).2.2 q0 hq0E r (List.mem_cons_self r rs)
              exact lt_of_le_of_ne (rowLe_year_of_eq hle hcc) hyne
            have hex : ∃ q ∈ E ++ r :: rs,
                q.country_name = (mkPanelRow (some (q0.country_name,
                  q0.ecom_sales_usd_millions, some w)) r).country_name ∧
                  q.year < (mkPanelRow (some (q0.country_name,
                    q0.ecom_sales_usd_millions, some w)) r).year := by
              rw [hpc, hpy]
              exact ⟨q0, List.mem_append_left _ hq0E, hcc, hylt⟩
            exact ⟨iff_of_false hg1 (not_not_intro hex),
                   iff_of_false hg2 (not_not_intro hex)⟩
          · -- the country changed: both growth columns are null again
            have hg1 : (mkPanelRow (some (q0.country_name, q0.ecom_sales_usd_millions,
                some w)) r).ecom_sales_growth = none := by
              simp [mkPanelRow, prevSalesOf, hcc]
            have hg2 : (mkPanelRow (some (q0.country_name, q0.ecom_sales_usd_millions,
                some w)) r).internet_growth = none := by
              simp [mkPanelRow, prevPadOf, hcc]
            have hno : ¬ ∃ q ∈ E ++ r :: rs,
                q.country_name = (mkPanelRow (some (q0.country_name,
                  q0.ecom_sales_usd_millions, some w)) r).country_name ∧
                  q.year < (mkPanelRow (some (q0.country_name,
                    q0.ecom_sales_usd_millions, some w)) r).year := by
              rw [hpc, hpy]
              rintro ⟨q, hq, hqc, hqy⟩
              rcases List.mem_append.mp hq with hqE | hqrs
              · have h1 : q = q0 ∨ rowLe q q0 :=
                  pairwise_getLast (List.pairwise_append.mp hsort).1 hgl q hqE
                have hstr : strKey q0.country_name < strKey r.country_name :=
                  rowLe_country_lt
                    ((List.pairwise_append.mp hsort).2.2 q0 hq0E r (List.mem_cons_self r rs))
                    hcc
                rcases h1 with h1 | h1
                · exact hcc ((h1 ▸ hqc :))
                · have hle2 : strKey q.country_name ≤ strKey q0.country_name :=
                    rowLe_strle h1
                  rw [hqc] at hle2
                  exact absurd hstr (not_lt.mpr hle2)
              · rcases List.mem_cons.mp hqrs with h | h
                · exact lt_irrefl _ (h ▸ hqy)
                · exact hrE q h hqc hqy
            exact ⟨iff_of_true hg1 hno, iff_of_true hg2 hno⟩
      · -- the tail: apply the induction hypothesis with the head row consumed
        have hEl : (E ++ [r]) ++ rs = E ++ r :: rs := by simp
        have hctx' : ctxRel (E ++ [r]) (nextCtx ctx r) := by
          rcases hnet r (List.mem_append_right _ (List.mem_cons_self r rs)) with ⟨v, hv, hvpos⟩
          unfold ctxRel
          rw [List.getLast?_concat]
          exact ⟨v, hv, hvpos, by simp [nextCtx, curPadOf, hv]⟩
        have hres := ih (E ++ [r]) (nextCtx ctx r) (by rw [hEl]; exact hsort)
          (by rw [hEl]; exact hnd) (by rw [hEl]; exact hpos) (by rw [hEl]; exact hnet)
          hctx' p hp'
        rw [hEl] at hres
        exact hres

/-- Growth-column nullness over the sorted pre-outlier panel: a growth value is
null exactly when the row is its country's earliest, provided keys are unique,
sales values are positive and internet values are present and positive. -/
theorem preOutlierPanel_null_iff (m : List MasterRow)
    (hnd : (m.map masterKey).Nodup)
    (hpos : ∀ q ∈ m, 0 < q.ecom_sales_usd_millions)
    (hnet : ∀ q ∈ m, ∃ v, q.internet_users_pct = some v ∧ 0 < v) :
    ∀ p ∈ preOutlierPanel m,
      ((p.ecom_sales_growth = none ↔
        ¬ ∃ q ∈ m, q.country_name = p.country_name ∧ q.year < p.year) ∧
       (p.internet_growth = none ↔
        ¬ ∃ q ∈ m, q.country_name = p.country_name ∧ q.year < p.year)) := by
  intro p hp
  have hperm := sortPanel_perm m
  have hs : (([] : List MasterRow) ++ sortPanel m).Pairwise rowLe := by
    simpa using sortPanel_pairwise m
  have hn : ((([] : List MasterRow) ++ sortPanel m).map masterKey).Nodup := by
    simpa using (hperm.map masterKey).nodup_iff.mpr hnd
  have hp1 : ∀ q ∈ ([] : List MasterRow) ++ sortPanel m, 0 < q.ecom_sales_usd_millions := by
    intro q hq
    exact hpos q (hperm.mem_iff.mp (by simpa using hq))
  have hp2 : ∀ q ∈ ([] : List MasterRow) ++ sortPanel m,
      ∃ v, q.internet_users_pct = some v ∧ 0 < v := by
    intro q hq
    exact hnet q (hperm.mem_iff.mp (by simpa using hq))
  have hcr : ctxRel [] none := by unfold ctxRel; simp
  have hres := addGrowthAux_null_iff (sortPanel m) [] none hs hn hp1 hp2 hcr p hp
  have hiff : (∃ q ∈ ([] : List MasterRow) ++ sortPanel m,
      q.country_name = p.country_name ∧ q.year < p.year) ↔
      (∃ q ∈ m, q.country_name = p.country_name ∧ q.year < p.year) := by
    constructor
    · rintro ⟨q, hq, h⟩
      exact ⟨q, hperm.mem_iff.mp (by simpa using hq), h⟩
    · rintro ⟨q, hq, h⟩
      exact ⟨q, by simpa using hperm.mem_iff.mpr hq, h⟩
  exact ⟨hres.1.trans (not_congr hiff), hres.2.trans (not_congr hiff)⟩

/-! ### Provenance of panel rows -/

theorem mergeClass_mem (agg : List AggRow) (cls : List ClassRow) (c : ClassedRow)
    (hc : c ∈ mergeClass agg cls) : c.toAggRow ∈ agg := by
  rcases leftMerge_mem _ _ _ _ agg cls c hc with ⟨a, ha, h | ⟨b, _, h, _⟩⟩ <;>
    · rw [h]; exact ha

theorem mergeInternet_mem (rows : List ClassedRow) (net : List InternetRow) (i : IRow)
    (hi : i ∈ mergeInternet rows net) : i.toClassedRow ∈ rows := by
  rcases leftMerge_mem _ _ _ _ rows net i hi with ⟨a, ha, h | ⟨b, _, h, _⟩⟩ <;>
    · rw [h]; exact ha

theorem mergeConflict_mem (rows : List IRow) (conflict : Option (List ConflictRaw)) (c : CRow)
    (hc : c ∈ mergeConflict rows conflict) : c.toIRow ∈ rows := by
  cases conflict with
  | none =>
      rcases List.mem_map.mp hc with ⟨r, hr, h⟩
      rw [← h]
      exact hr
  | some cs =>
      rcases leftMerge_mem _ _ _ _ rows (conflictAgg cs) c hc with ⟨a, ha, h | ⟨b, _, h, _⟩⟩ <;>
        · rw [h]; exact ha

theorem fixMalta_mem (m : List IRow) (x : IRow) (hx : x ∈ fixMalta m) :
    ∃ p ∈ m, x = maltaPatch p := by
  rcases List.mem_map.mp hx with ⟨p, hp, h⟩
  exact ⟨p, hp, h.symm⟩

theorem maltaPatch_toAggRow (r : IRow) :
    (maltaPatch r).toClassedRow.toAggRow = r.toClassedRow.toAggRow := by
  unfold maltaPatch
  split <;> rfl

theorem maltaPatch_income (r : IRow) : (maltaPatch r).income_group = r.income_group := by
  unfold maltaPatch
  split <;> rfl

theorem maltaPatch_region_isSome (r : IRow) (h : r.region.isSome) :
    (maltaPatch r).region.isSome := by
  unfold maltaPatch
  split
  · rfl
  · exact h

/-- Every integrated row descends from a post-override aggregate row and keeps
its country, year, sales and share values. -/
theorem integrate_mem_agg (ecom : List EcomRow) (canada : Option (List CanadaRaw))
    (cls : List ClassRow) (net : List InternetRow) (conflict : Option (List ConflictRaw))
    (q : MasterRow) (hq : q ∈ integrate ecom canada cls net conflict) :
    ∃ a ∈ applyCanada (ecomAgg ecom) canada,
      q.country_name = a.country_name ∧ q.year = a.year ∧
      q.ecom_sales_usd_millions = a.ecom_sales_usd_millions ∧
      q.ecom_share_pct = a.ecom_share_pct := by
  rw [integrate_eq] at hq
  rcases List.mem_map.mp hq with ⟨c, hc, hqc⟩
  have hcir : c.toIRow ∈ coverageFilter (fixMalta (dropSar (dropUnclassified (dropLatAm
      (mergeInternet (mergeClass (applyCanada (ecomAgg ecom) canada) cls) net))))) :=
    mergeConflict_mem _ conflict c hc
  have h1 : c.toIRow ∈ fixMalta (dropSar (dropUnclassified (dropLatAm
      (mergeInternet (mergeClass (applyCanada (ecomAgg ecom) canada) cls) net)))) :=
    List.mem_of_mem_filter hcir
  rcases fixMalta_mem _ _ h1 with ⟨p, hp, hpc⟩
  have h2 : p ∈ mergeInternet (mergeClass (applyCanada (ecomAgg ecom) canada) cls) net :=
    List.mem_of_mem_filter (List.mem_of_mem_filter (List.mem_of_mem_filter hp))
  have h3 : p.toClassedRow ∈ mergeClass (applyCanada (ecomAgg ecom) canada) cls :=
    mergeInternet_mem _ _ _ h2
  have h4 : p.toClassedRow.toAggRow ∈ applyCanada (ecomAgg ecom) canada :=
    mergeClass_mem _ _ _ h3
  refine ⟨p.toClassedRow.toAggRow, h4, ?_, ?_, ?_, ?_⟩ <;>
  · rw [← hqc]
    show _ = _
    rw [show (addShocks c).toCRow = c from rfl] at *
    have : c.toIRow.toClassedRow.toAggRow = p.toClassedRow.toAggRow := by
      rw [hpc, maltaPatch_toAggRow]
    exact congrArg _ this

theorem ecomAgg_year_mem (e : List EcomRow) (a : AggRow) (ha : a ∈ ecomAgg e) :
    ∃ r ∈ e, a.year = r.year := by
  have hk : aggKey a ∈ ecomKeys e := by
    rw [← ecomAgg_map_key]
    exact List.mem_map_of_mem _ ha
  unfold ecomKeys at hk
  rcases List.mem_map.mp (List.mem_dedup.mp hk) with ⟨r, hr, hkey⟩
  refine ⟨r, List.mem_of_mem_filter hr, ?_⟩
  rw [show a.year = (aggKey a).2 from rfl, ← hkey]

theorem canadaYearly_year_mem (rows : List CanadaRaw) (a : AggRow) (ha : a ∈ canadaYearly rows) :
    ∃ r ∈ rows, a.year = r.year := by
  have hy : a.year ∈ canadaYearKeys rows := by
    rw [← canadaYearly_map_year]
    exact List.mem_map_of_mem _ ha
  unfold canadaYearKeys at hy
  rcases List.mem_map.mp (List.mem_dedup.mp hy) with ⟨mr, hmr, hkey⟩
  unfold canadaMonthly at hmr
  rcases List.mem_flatMap.mp hmr with ⟨er, he, hmem⟩
  rcases List.mem_map.mp hmem with ⟨t, _, hteq⟩
  refine ⟨er, List.mem_of_mem_filter he, ?_⟩
  rw [← hkey, ← hteq]

/-- Every integrated row has a non-null region, and a non-null income group as
soon as every classification row carrying a region also carries an income group. -/
theorem integrate_classified (ecom : List EcomRow) (canada : Option (List CanadaRaw))
    (cls : List ClassRow) (net : List InternetRow) (conflict : Option (List ConflictRaw))
    (q : MasterRow) (hq : q ∈ integrate ecom canada cls net conflict) :
    q.region.isSome ∧
      ((∀ cr ∈ cls, cr.region.isSome → cr.income_group.isSome) → q.income_group.isSome) := by
  rw [integrate_eq] at hq
  rcases List.mem_map.mp hq with ⟨c, hc, hqc⟩
  have hcir : c.toIRow ∈ coverageFilter (fixMalta (dropSar (dropUnclassified (dropLatAm
      (mergeInternet (mergeClass (applyCanada (ecomAgg ecom) canada) cls) net))))) :=
    mergeConflict_mem _ conflict c hc
  rcases fixMalta_mem _ _ (List.mem_of_mem_filter hcir) with ⟨p, hp, hpc⟩
  have hpreg : p.region.isSome := by
    have h1 : p ∈ dropUnclassified (dropLatAm
        (mergeInternet (mergeClass (applyCanada (ecomAgg ecom) canada) cls) net)) :=
      List.mem_of_mem_filter hp
    exact (List.mem_filter.mp h1).2
  have hqreg : q.region = (maltaPatch p).region := by
    rw [← hqc]
    show c.toIRow.region = _
    rw [hpc]
  have hqinc : q.income_group = p.income_group := by
    rw [← hqc]
    show c.toIRow.income_group = _
    rw [hpc, maltaPatch_income]
  constructor
  · rw [hqreg]
    exact maltaPatch_region_isSome p hpreg
  · intro hinc
    rw [hqinc]
    have h2 : p ∈ mergeInternet (mergeClass (applyCanada (ecomAgg ecom) canada) cls) net :=
      List.mem_of_mem_filter (List.mem_of_mem_filter (List.mem_of_mem_filter hp))
    have h3 : p.toClassedRow ∈ mergeClass (applyCanada (ecomAgg ecom) canada) cls :=
      mergeInternet_mem _ _ _ h2
    rcases leftMerge_mem _ _ _ _ _ cls p.toClassedRow h3 with ⟨a, _, h | ⟨b, hb, h, _⟩⟩
    · exfalso
      have : p.region = none := by
        show p.toClassedRow.region = none
        rw [h]
      rw [this] at hpreg
      cases hpreg
    · have hreg : p.region = b.region := by
        show p.toClassedRow.region = b.region
        rw [h]
      have : p.income_group = b.income_group := by
        show p.toClassedRow.income_group = b.income_group
        rw [h]
      rw [this]
      exact hinc b hb (by rw [← hreg]; exact hpreg)

/-- A missing conflict source zero-fills both conflict columns. -/
theorem integrate_conflict_source_missing (ecom : List EcomRow)
    (canada : Option (List CanadaRaw)) (cls : List ClassRow) (net : List InternetRow)
    (q : MasterRow) (hq : q ∈ integrate ecom canada cls net none) :
    q.conflict_deaths = 0 ∧ q.civilian_deaths = 0 := by
  rw [integrate_eq] at hq
  rcases List.mem_map.mp hq with ⟨c, hc, hqc⟩
  rcases List.mem_map.mp hc with ⟨r, _, hrc⟩
  constructor <;> (rw [← hqc, ← hrc]; rfl)

/-- With a loaded conflict source, a row with no matching event record keeps
zero in both conflict columns. -/
theorem integrate_conflict_unmatched (ecom : List EcomRow) (canada : Option (List CanadaRaw))
    (cls : List ClassRow) (net : List InternetRow) (cs : List ConflictRaw)
    (q : MasterRow) (hq : q ∈ integrate ecom canada cls net (some cs))
    (hno : ∀ v ∈ cs, ¬(v.country = q.country_name ∧ v.year = q.year)) :
    q.conflict_deaths = 0 ∧ q.civilian_deaths = 0 := by
  rw [integrate_eq] at hq
  rcases List.mem_map.mp hq with ⟨c, hc, hqc⟩
  rcases leftMerge_mem _ _ _ _ _ (conflictAgg cs) c hc with ⟨r, _, h | ⟨b, hb, h, hkb⟩⟩
  · constructor <;> (rw [← hqc, h]; rfl)
  · exfalso
    have hkey : (b.country_name, b.year) ∈ conflictKeys cs := by
      rw [← conflictAgg_map_key]
      exact List.mem_map_of_mem _ hb
    rcases List.mem_map.mp (List.mem_dedup.mp hkey) with ⟨v, hv, hveq⟩
    have hq1 : q.country_name = r.country_name := by rw [← hqc, h]; rfl
    have hq2 : q.year = r.year := by rw [← hqc, h]; rfl
    refine hno v hv ⟨?_, ?_⟩
    · exact (congrArg Prod.fst hveq).trans ((congrArg Prod.fst hkb).trans hq1.symm)
    · exact (congrArg Prod.snd hveq).trans ((congrArg Prod.snd hkb).trans hq2.symm)

/-! ### The outlier filter -/

theorem removeExtremeOutliers_mem_iff (g : PanelRow → Option ℚ) (df : List PanelRow)
    (r : PanelRow) :
    r ∈ removeExtremeOutliers g df ↔
      r ∈ df ∧ (g r = none ∨
        ∃ v, g r = some v ∧ fenceLower g df ≤ v ∧ v ≤ fenceUpper g df) := by
  unfold removeExtremeOutliers
  rw [List.mem_filter]
  cases hgr : g r <;> simp [hgr]

theorem outlierStep_keeps_null (df : List PanelRow) (r : PanelRow) (hr : r ∈ df)
    (hg : r.ecom_sales_growth = none) : r ∈ outlierStep df := by
  unfold outlierStep
  split
  · unfold removeExtremeOutliers
    exact List.mem_filter.mpr ⟨hr, by simp [ecomGrowthCol, hg]⟩
  · exact hr

theorem outlierStep_same_growth (df : List PanelRow) (r s : PanelRow) (hr : r ∈ df)
    (hs : s ∈ df) (hgs : r.ecom_sales_growth = s.ecom_sales_growth) :
    (r ∈ outlierStep df ↔ s ∈ outlierStep df) := by
  unfold outlierStep
  split
  · unfold removeExtremeOutliers
    rw [List.mem_filter, List.mem_filter]
    have hpred : ecomGrowthCol r = ecomGrowthCol s := hgs
    rw [hpred]
    simp [hr, hs]
  · simp [hr, hs]

theorem cleanPanel_year (m : List MasterRow) (p : PanelRow) (hp : p ∈ cleanPanel m) :
    2012 ≤ p.year :=
  of_decide_eq_true (List.mem_filter.mp hp).2

/-! ### The monthly override join -/

theorem canadaMonthly_join_iff (rows : List CanadaRaw) (y mo : Int) :
    ((canadaMonthly rows).filter (fun mr => decide ((mr.year, mr.month) = (y, mo)))) ≠ [] ↔
      (((canadaEcomRows rows).filter (fun e => decide ((e.year, e.month) = (y, mo)))) ≠ [] ∧
       ((canadaTotalRows rows).filter (fun t => decide ((t.year, t.month) = (y, mo)))) ≠ []) := by
  rw [filter_ne_nil_iff, filter_ne_nil_iff, filter_ne_nil_iff]
  constructor
  · rintro ⟨mr, hmr, hkey⟩
    have hk := of_decide_eq_true hkey
    unfold canadaMonthly at hmr
    rcases List.mem_flatMap.mp hmr with ⟨e, he, hmem⟩
    rcases List.mem_map.mp hmem with ⟨t, ht, hteq⟩
    have ht' := List.mem_filter.mp ht
    rw [← hteq] at hk
    constructor
    · exact ⟨e, he, decide_eq_true hk⟩
    · exact ⟨t, ht'.1, decide_eq_true ((of_decide_eq_true ht'.2).trans hk)⟩
  · rintro ⟨⟨e, he, hek⟩, ⟨t, ht, htk⟩⟩
    have heky := of_decide_eq_true hek
    have htky := of_decide_eq_true htk
    refine ⟨{ year := e.year, month := e.month, ecom_sales_thousands := e.value
              total_sales_thousands := t.value
              ecom_share_pct := e.value / t.value * 100 }, ?_, decide_eq_true heky⟩
    unfold canadaMonthly
    rw [List.mem_flatMap]
    refine ⟨e, he, List.mem_map.mpr ⟨t, ?_, rfl⟩⟩
    exact List.mem_filter.mpr ⟨ht, decide_eq_true (htky.trans heky.symm)⟩

theorem canadaMonthly_share (rows : List CanadaRaw) (mr : CanadaMonthlyRow)
    (hmr : mr ∈ canadaMonthly rows) :
    mr.ecom_share_pct = mr.ecom_sales_thousands / mr.total_sales_thousands * 100 := by
  unfold canadaMonthly at hmr
  rcases List.mem_flatMap.mp hmr with ⟨e, _, hmem⟩
  rcases List.mem_map.mp hmem with ⟨t, _, hteq⟩
  rw [← hteq]

/-! ### Pipeline-level composites -/

theorem pipeline_mem_agg (ecom : List EcomRow) (canada : Option (List CanadaRaw))
    (cls : List ClassRow) (net : List InternetRow) (conflict : Option (List ConflictRaw))
    (p : PanelRow) (hp : p ∈ pipeline ecom canada cls net conflict) :
    ∃ a ∈ applyCanada (ecomAgg ecom) canada,
      p.country_name = a.country_name ∧ p.year = a.year ∧
      p.ecom_sales_usd_millions = a.ecom_sales_usd_millions ∧
      p.ecom_share_pct = a.ecom_share_pct := by
  have hm : p.toMasterRow ∈ integrate ecom canada cls net conflict :=
    cleanPanel_mem _ _ hp
  exact integrate_mem_agg ecom canada cls net conflict p.toMasterRow hm

/-! ### The claims -/

/-- C1, counterexample to the claim as stated: a classification source with at
most one row per country name does not suffice — an internet source with two
rows for the same (iso3, year) duplicates the (country_name, year) key all the
way into the emitted panel. -/
theorem C1_counterexample :
    ((clsDup.map ClassRow.country_name).Nodup) ∧
      ¬ ((pipeline eDup none clsDup netDup none).map panelKey).Nodup :=
  of_decide_eq_true (by with_unfolding_all rfl)

/-- C1, amended: if the classification source has at most one row per country
name and the internet source has at most one row per (iso3, year), then
(country_name, year) is a unique key of the emitted panel. -/
theorem C1_thm (ecom : List EcomRow) (canada : Option (List CanadaRaw)) (cls : List ClassRow)
    (net : List InternetRow) (conflict : Option (List ConflictRaw))
    (hcls : (cls.map ClassRow.country_name).Nodup)
    (hnet : (net.map fun i => (i.iso3, i.year)).Nodup) :
    ((integrate ecom canada cls net conflict).map masterKey).Nodup ∧
      ((pipeline ecom canada cls net conflict).map panelKey).Nodup :=
  ⟨integrate_keys_nodup ecom canada cls net conflict hcls hnet,
   cleanPanel_keys_nodup _ (integrate_keys_nodup ecom canada cls net conflict hcls hnet)⟩

/-- C1, witness: the amended theorem applied to a concrete two-year input. -/
theorem C1_witness :
    ((integrate eW none clsW netW none).map masterKey).Nodup ∧
      ((pipeline eW none clsW netW none).map panelKey).Nodup :=
  C1_thm eW none clsW netW none (by decide) (by decide)

/-- C2, counterexample to the claim as stated: nothing caps the year at 2024 —
an input with 2029/2030 rows reaches the emitted panel untouched. -/
theorem C2_counterexample :
    ∃ p ∈ pipeline eLate none clsDup [] none, 2024 < p.year :=
  of_decide_eq_true (by with_unfolding_all rfl)

/-- C2, amended: every emitted row has year at least 2012, unconditionally for
every input; and year at most 2024 provided every e-commerce source row and
every monthly-override record carries a year at most 2024. -/
theorem C2_thm (ecom : List EcomRow) (canada : Option (List CanadaRaw)) (cls : List ClassRow)
    (net : List InternetRow) (conflict : Option (List ConflictRaw)) :
    ∀ p ∈ pipeline ecom canada cls net conflict,
      2012 ≤ p.year ∧
        ((∀ r ∈ ecom, r.year ≤ 2024) →
          (∀ rows, canada = some rows → ∀ r ∈ rows, r.year ≤ 2024) →
          p.year ≤ 2024) := by
  intro p hp
  refine ⟨cleanPanel_year _ p hp, ?_⟩
  intro he hca
  rcases pipeline_mem_agg ecom canada cls net conflict p hp with ⟨a, ha, _, hy, _, _⟩
  rcases applyCanada_mem _ _ a ha with h | ⟨rows, hceq, h⟩
  · rcases ecomAgg_year_mem _ _ h with ⟨r, hr, hyr⟩
    rw [hy, hyr]
    exact he r hr
  · rcases canadaYearly_year_mem _ _ h with ⟨r, hr, hyr⟩
    rw [hy, hyr]
    exact hca rows hceq r hr

/-- C2, witness: the amended bounds applied to a concrete emitted row, the
upper-bound hypotheses discharged there. -/
theorem C2_witness : 2012 ≤ pW2015.year ∧ pW2015.year ≤ 2024 :=
  have h := C2_thm eW none clsW netW none pW2015
    (of_decide_eq_true (by with_unfolding_all rfl))
  ⟨h.1, h.2 (by decide) (fun rows hc => nomatch hc)⟩

theorem integrate_eGap_eval : integrate eGap none clsDup netGap none = [mG2014, mG2018] :=
  of_decide_eq_true (by with_unfolding_all rfl)

/-- C3, counterexample to the claim as stated: pct_change differences against
the previous row of the country, not against year t-1 — with rows at 2014 and
2018 only, the 2018 growth values are non-null although no 2017 row exists. -/
theorem C3_counterexample :
    ∃ p ∈ preOutlierPanel (integrate eGap none clsDup netGap none),
      p.year = 2018 ∧ p.ecom_sales_growth ≠ none ∧ p.internet_growth ≠ none ∧
        ¬ ∃ q ∈ integrate eGap none clsDup netGap none,
            q.country_name = p.country_name ∧ q.year = p.year - 1 := by
  rw [integrate_eGap_eval]
  exact of_decide_eq_true (by with_unfolding_all rfl)

/-- C3, amended: in the pre-outlier panel, the growth columns of a row are null
exactly when the panel holds no earlier-year row of the same country (its
earliest row), for panels with unique keys, positive sales values and present,
positive internet values. -/
theorem C3_thm (m : List MasterRow)
    (hnd : (m.map masterKey).Nodup)
    (hpos : ∀ q ∈ m, 0 < q.ecom_sales_usd_millions)
    (hnet : ∀ q ∈ m, ∃ v, q.internet_users_pct = some v ∧ 0 < v) :
    ∀ p ∈ preOutlierPanel m,
      ((p.ecom_sales_growth = none ↔
        ¬ ∃ q ∈ m, q.country_name = p.country_name ∧ q.year < p.year) ∧
       (p.internet_growth = none ↔
        ¬ ∃ q ∈ m, q.country_name = p.country_name ∧ q.year < p.year)) :=
  preOutlierPanel_null_iff m hnd hpos hnet

theorem integrate_eW_eval : integrate eW none clsW netW none = [mW2015, mW2016] :=
  of_decide_eq_true (by with_unfolding_all rfl)

/-- C3, witness: the amended characterization applied to the 2016 row of a
concrete two-year integrated panel. -/
theorem C3_witness :
    ((pW2016.ecom_sales_growth = none ↔
      ¬ ∃ q ∈ integrate eW none clsW netW none,
          q.country_name = pW2016.country_name ∧ q.year < pW2016.year) ∧
     (pW2016.internet_growth = none ↔
      ¬ ∃ q ∈ integrate eW none clsW netW none,
          q.country_name = pW2016.country_name ∧ q.year < pW2016.year)) :=
  C3_thm (integrate eW none clsW netW none)
    (by rw [integrate_eW_eval]; exact of_decide_eq_true (by with_unfolding_all rfl))
    (by rw [integrate_eW_eval]; exact of_decide_eq_true (by with_unfolding_all rfl))
    (by rw [integrate_eW_eval]; exact of_decide_eq_true (by with_unfolding_all rfl))
    pW2016
    (by
      show pW2016 ∈ preOutlierPanel (integrate eW none clsW netW none)
      rw [integrate_eW_eval]
      exact of_decide_eq_true (by with_unfolding_all rfl))

/-- C4, counterexample to the claim as stated: the code's upper fence is
Q3 + 3 IQR, not Q1 + 3 IQR — on growths 1, 2, 3, 4, 5, 11 the row holding 11
is retained although 11 exceeds Q1 + 3 IQR = 9.75. -/
theorem C4_counterexample :
    pG 6 1 (some 11) none ∈ removeExtremeOutliers ecomGrowthCol dfEleven ∧
      quantileOf (colVals ecomGrowthCol dfEleven) (1 / 4) +
        3 * (quantileOf (colVals ecomGrowthCol dfEleven) (3 / 4) -
             quantileOf (colVals ecomGrowthCol dfEleven) (1 / 4)) < 11 :=
  of_decide_eq_true (by with_unfolding_all rfl)

/-- C4, amended: the outlier step retains exactly the rows whose growth value is
null or inside [Q1 - 3 IQR, Q3 + 3 IQR] (quartiles over the non-null values);
on the 1, 2, 3, 4, 5, 1000 scenario the fences are [-21/4, 49/4], the 1000 row
is dropped and the rest are kept. -/
theorem C4_thm :
    (∀ (df : List PanelRow) (r : PanelRow),
        r ∈ removeExtremeOutliers ecomGrowthCol df ↔
          r ∈ df ∧ (r.ecom_sales_growth = none ∨
            ∃ v, r.ecom_sales_growth = some v ∧
              fenceLower ecomGrowthCol df ≤ v ∧ v ≤ fenceUpper ecomGrowthCol df)) ∧
    removeExtremeOutliers ecomGrowthCol dfScenario =
      [pG 1 1 (some 1) none, pG 2 1 (some 2) none, pG 3 1 (some 3) none,
       pG 4 1 (some 4) none, pG 5 1 (some 5) none] ∧
    fenceLower ecomGrowthCol dfScenario = -21 / 4 ∧
    fenceUpper ecomGrowthCol dfScenario = 49 / 4 :=
  ⟨fun df r => removeExtremeOutliers_mem_iff ecomGrowthCol df r,
   of_decide_eq_true (by with_unfolding_all rfl),
   of_decide_eq_true (by with_unfolding_all rfl),
   of_decide_eq_true (by with_unfolding_all rfl)⟩

/-- C4, witness: the retention characterization applied to the scenario's
1000-growth row. -/
theorem C4_witness :
    pG 6 1 (some 1000) none ∈ removeExtremeOutliers ecomGrowthCol dfScenario ↔
      pG 6 1 (some 1000) none ∈ dfScenario ∧
        ((pG 6 1 (some 1000) none).ecom_sales_growth = none ∨
          ∃ v, (pG 6 1 (some 1000) none).ecom_sales_growth = some v ∧
            fenceLower ecomGrowthCol dfScenario ≤ v ∧
              v ≤ fenceUpper ecomGrowthCol dfScenario) :=
  C4_thm.1 dfScenario (pG 6 1 (some 1000) none)

/-- C5, counterexample to the claim as stated: the outlier loop runs only over
ecom_sales_growth — a row whose internet_growth is the extreme 1000 survives
the pipeline's outlier step even though applying the removal policy to the
internet_growth column would drop it. -/
theorem C5_counterexample :
    pG 6 1 (some 1) (some 1000) ∈ outlierStep dfShares ∧
      pG 6 1 (some 1) (some 1000) ∉ removeExtremeOutliers internetGrowthCol dfShares :=
  of_decide_eq_true (by with_unfolding_all rfl)

/-- C5, amended: the outlier step filters on ecom_sales_growth alone — rows
with null growth always survive, and two rows of the same panel with equal
ecom_sales_growth survive or fall together, whatever their share, internet or
other column values. -/
theorem C5_thm :
    (∀ (df : List PanelRow) (r : PanelRow), r ∈ df → r.ecom_sales_growth = none →
        r ∈ outlierStep df) ∧
    (∀ (df : List PanelRow) (r s : PanelRow), r ∈ df → s ∈ df →
        r.ecom_sales_growth = s.ecom_sales_growth →
        (r ∈ outlierStep df ↔ s ∈ outlierStep df)) :=
  ⟨outlierStep_keeps_null, outlierStep_same_growth⟩

/-- C5, witness: a null-growth row with share 999 survives, and two rows with
equal growth but different shares share their fate. -/
theorem C5_witness :
    (pG 1 999 none none ∈ outlierStep dfNullShare) ∧
      (pG 2 1 (some 1) none ∈ outlierStep dfNullShare ↔
        pG 3 2 (some 1) none ∈ outlierStep dfNullShare) :=
  ⟨C5_thm.1 dfNullShare (pG 1 999 none none)
      (of_decide_eq_true (by with_unfolding_all rfl)) rfl,
   C5_thm.2 dfNullShare (pG 2 1 (some 1) none) (pG 3 2 (some 1) none)
      (of_decide_eq_true (by with_unfolding_all rfl))
      (of_decide_eq_true (by with_unfolding_all rfl)) rfl⟩

/-- C6: every (country, year) group of the segment-filtered primary source
yields exactly one aggregate row, whose sales are the group sum and whose share
is the arithmetic mean of the group shares. -/
theorem C6_thm (rows : List EcomRow) (c : String) (y : Int)
    (h : ecomGroup rows (c, y) ≠ []) :
    (ecomAgg rows).filter (fun a => decide (aggKey a = (c, y))) =
      [{ country_name := c, year := y
         ecom_sales_usd_millions := ((ecomGroup rows (c, y)).map EcomRow.sales).sum
         ecom_share_pct := ((ecomGroup rows (c, y)).map EcomRow.share).sum /
           ((ecomGroup rows (c, y)).length : ℚ) }] := by
  unfold ecomAgg
  rw [List.filter_map]
  have hfun : ((fun a => decide (aggKey a = (c, y))) ∘ mkEcomAggRow rows) =
      fun k => decide (k = (c, y)) := rfl
  rw [hfun]
  have hmem : (c, y) ∈ ecomKeys rows := by
    unfold ecomKeys
    rw [List.mem_dedup]
    rcases List.exists_mem_of_ne_nil _ h with ⟨r, hr⟩
    have hr2 := List.mem_filter.mp hr
    exact List.mem_map.mpr ⟨r, hr2.1, of_decide_eq_true hr2.2⟩
  rw [filter_eq_singleton_of_nodup _ _ (by unfold ecomKeys; exact List.nodup_dedup _) hmem]
  rfl

/-- C6, witness: the Testland scenario — three matching rows with sales
10, 20, 5 and shares 2, 3, 1 aggregate to one row with sales 35, share 2. -/
theorem C6_witness :
    (ecomAgg eTest).filter (fun a => decide (aggKey a = ("Testland", 2019))) =
      [{ country_name := "Testland", year := 2019, ecom_sales_usd_millions := 35
         ecom_share_pct := 2 }] :=
  (C6_thm eTest "Testland" 2019 (by decide)).trans
    (of_decide_eq_true (by with_unfolding_all rfl))

/-- C7: the monthly override joins the two series with an inner join on
(year, month) — a month appears exactly when both series carry it, each joined
month derives share = ecom / total * 100 — and every emitted panel row for the
override country in an override year carries the override's sales and share. -/
theorem C7_thm :
    (∀ (rows : List CanadaRaw) (y mo : Int),
        ((canadaMonthly rows).filter (fun mr => decide ((mr.year, mr.month) = (y, mo)))) ≠ [] ↔
          (((canadaEcomRows rows).filter
              (fun e => decide ((e.year, e.month) = (y, mo)))) ≠ [] ∧
           ((canadaTotalRows rows).filter
              (fun t => decide ((t.year, t.month) = (y, mo)))) ≠ [])) ∧
    (∀ (rows : List CanadaRaw) (mr : CanadaMonthlyRow), mr ∈ canadaMonthly rows →
        mr.ecom_share_pct = mr.ecom_sales_thousands / mr.total_sales_thousands * 100) ∧
    (∀ (ecom : List EcomRow) (cRows : List CanadaRaw) (cls : List ClassRow)
        (net : List InternetRow) (conflict : Option (List ConflictRaw)) (p : PanelRow),
        p ∈ pipeline ecom (some cRows) cls net conflict → p.country_name = "Canada" →
        p.year ∈ (canadaYearly cRows).map AggRow.year →
        ∃ a ∈ canadaYearly cRows, a.year = p.year ∧
          p.ecom_sales_usd_millions = a.ecom_sales_usd_millions ∧
          p.ecom_share_pct = a.ecom_share_pct) := by
  refine ⟨canadaMonthly_join_iff, canadaMonthly_share, ?_⟩
  intro ecom cRows cls net conflict p hp hcn hyin
  rcases pipeline_mem_agg ecom (some cRows) cls net conflict p hp with ⟨a, ha, hc, hy2, hs, hsh⟩
  have hac : a.country_name = "Canada" := by rw [← hc]; exact hcn
  have hay : a.year ∈ (canadaYearly cRows).map AggRow.year := by rw [← hy2]; exact hyin
  exact ⟨a, applyCanada_authoritative _ cRows a ha hac hay, hy2.symm, hs, hsh⟩

/-- C7, witness: June 2020 (100 over 1000, share 10) joins, the December 2020
month with no total-sales record is dropped, and the emitted 2020 Canada row
carries the override's values. -/
theorem C7_witness :
    (((canadaMonthly crW).filter (fun mr => decide ((mr.year, mr.month) = (2020, 6)))) ≠ []) ∧
    ¬ (((canadaMonthly crW).filter
        (fun mr => decide ((mr.year, mr.month) = (2020, 12)))) ≠ []) ∧
    canadaMonthly crW = [{ year := 2020, month := 6, ecom_sales_thousands := 100
                           total_sales_thousands := 1000, ecom_share_pct := 10 }] ∧
    (∃ a ∈ canadaYearly crW, a.year = pCan2020.year ∧
      pCan2020.ecom_sales_usd_millions = a.ecom_sales_usd_millions ∧
      pCan2020.ecom_share_pct = a.ecom_share_pct) := by
  refine ⟨(C7_thm.1 crW 2020 6).mpr ⟨by decide, by decide⟩, ?_,
    of_decide_eq_true (by with_unfolding_all rfl), ?_⟩
  · intro hne
    exact ((C7_thm.1 crW 2020 12).mp hne).2 (by decide)
  · exact C7_thm.2.2 eCan crW clsCan [] none pCan2020
      (of_decide_eq_true (by with_unfolding_all rfl)) rfl
      (of_decide_eq_true (by with_unfolding_all rfl))

/-- C8, counterexample to the claim as stated: a classification row may carry a
region but no income group — the row passes the region filter and exits the
pipeline with a null income_group. -/
theorem C8_counterexample :
    ∃ p ∈ pipeline eDup none clsNoInc [] none, p.income_group = none :=
  of_decide_eq_true (by with_unfolding_all rfl)

/-- C8, amended: every row of the Integrator's panel and of the final emitted
panel has a non-null region, unconditionally for every input; and a non-null
income group provided every classification row carrying a region also carries
an income group. -/
theorem C8_thm (ecom : List EcomRow) (canada : Option (List CanadaRaw)) (cls : List ClassRow)
    (net : List InternetRow) (conflict : Option (List ConflictRaw)) :
    (∀ q ∈ integrate ecom canada cls net conflict,
        q.region.isSome ∧
          ((∀ cr ∈ cls, cr.region.isSome → cr.income_group.isSome) →
            q.income_group.isSome)) ∧
    (∀ p ∈ pipeline ecom canada cls net conflict,
        p.region.isSome ∧
          ((∀ cr ∈ cls, cr.region.isSome → cr.income_group.isSome) →
            p.income_group.isSome)) := by
  refine ⟨fun q hq => integrate_classified ecom canada cls net conflict q hq, ?_⟩
  intro p hp
  exact integrate_classified ecom canada cls net conflict p.toMasterRow
    (cleanPanel_mem _ _ hp)

/-- C8, witness: the amended guarantees applied to a concrete integrated row
and a concrete emitted row, the income hypothesis discharged there. -/
theorem C8_witness :
    (mW2016.region.isSome ∧ mW2016.income_group.isSome) ∧
      (pW2016.region.isSome ∧ pW2016.income_group.isSome) :=
  have h1 := (C8_thm eW none clsW netW none).1 mW2016
    (by rw [integrate_eW_eval]; exact of_decide_eq_true (by with_unfolding_all rfl))
  have h2 := (C8_thm eW none clsW netW none).2 pW2016
    (of_decide_eq_true (by with_unfolding_all rfl))
  ⟨⟨h1.1, h1.2 (by decide)⟩, ⟨h2.1, h2.2 (by decide)⟩⟩

/-- C9: a missing conflict source zero-fills both conflict columns of every
emitted row; a missing monthly override leaves the global aggregate unreplaced;
and with a loaded conflict source, rows with no matching event record carry
zero, not null. -/
theorem C9_thm :
    (∀ (ecom : List EcomRow) (canada : Option (List CanadaRaw)) (cls : List ClassRow)
        (net : List InternetRow) (p : PanelRow), p ∈ pipeline ecom canada cls net none →
        p.conflict_deaths = 0 ∧ p.civilian_deaths = 0) ∧
    (∀ agg : List AggRow, applyCanada agg none = agg) ∧
    (∀ (ecom : List EcomRow) (canada : Option (List CanadaRaw)) (cls : List ClassRow)
        (net : List InternetRow) (cs : List ConflictRaw) (p : PanelRow),
        p ∈ pipeline ecom canada cls net (some cs) →
        (∀ v ∈ cs, ¬(v.country = p.country_name ∧ v.year = p.year)) →
        p.conflict_deaths = 0 ∧ p.civilian_deaths = 0) := by
  refine ⟨?_, fun agg => rfl, ?_⟩
  · intro ecom canada cls net p hp
    exact integrate_conflict_source_missing ecom canada cls net p.toMasterRow
      (cleanPanel_mem _ _ hp)
  · intro ecom canada cls net cs p hp hno
    exact integrate_conflict_unmatched ecom canada cls net cs p.toMasterRow
      (cleanPanel_mem _ _ hp) hno

/-- C9, witness: the zero-fill guarantees applied to concrete emitted rows and
a concrete aggregate. -/
theorem C9_witness :
    (pW2015.conflict_deaths = 0 ∧ pW2015.civilian_deaths = 0) ∧
      applyCanada aggEx none = aggEx ∧
      (pW2016.conflict_deaths = 0 ∧ pW2016.civilian_deaths = 0) :=
  ⟨C9_thm.1 eW none clsW netW pW2015 (of_decide_eq_true (by with_unfolding_all rfl)),
   C9_thm.2.1 aggEx,
   C9_thm.2.2 eW none clsW netW cs9 pW2016
     (of_decide_eq_true (by with_unfolding_all rfl)) (by decide)⟩

/-- C10: because the minimum-coverage filter runs before the year filter, a
country with one pre-2012 row and one later row keeps both rows through
integration and exactly one row in the emitted panel. -/
theorem C10_thm :
    ((integrate eSingle none clsSingle [] none).map masterKey) =
        [("Alandia", 2005), ("Alandia", 2015)] ∧
      ((pipeline eSingle none clsSingle [] none).map panelKey) = [("Alandia", 2015)] :=
  of_decide_eq_true (by with_unfolding_all rfl)

end MasterPipeline
